import Mathlib

/-!
Shallow embedding of the meeting-analysis core of the ALSA meeting
transcriber repository: the deterministic heuristic summarizer
(`meetingtranscriber/core/summarizer.py`) and the LLM orchestration layer
(`meetingtranscriber/core/summarization_service.py`).

Modelling conventions:
* Python strings are lists of characters (`LC := List Char`); `str.strip`,
  `str.lower`, `str.splitlines`, slicing and the specific regular
  expressions used by the source are implemented directly on `List Char`.
* Python dictionaries are insertion-ordered association lists, matching
  CPython dict semantics (updates keep the original key position, new keys
  append at the end).
* `\s` and `str.strip` whitespace is the ASCII whitespace set; `\d` is the
  ASCII digit set.  The transcripts of interest are ASCII or Arabic text
  without the exotic Unicode spaces / Arabic-Indic digits, where the two
  notions coincide.
* Fallible Python code (code that may raise) is embedded into
  `Except PyErr`; network calls are an explicit function argument mapping a
  prompt to the outcome of the HTTP exchange, and the list of prompts that
  were actually sent is returned alongside the result.
-/

set_option maxHeartbeats 1000000

namespace MT

abbrev LC := List Char

def lc (s : String) : LC := s.data

/-- ASCII/Python whitespace as recognised by `str.strip()` and regex `\s`. -/
def isPySpace (c : Char) : Bool :=
  c == ' ' || c == '\t' || c == '\n' || c == '\r' || c == '\x0b' || c == '\x0c'

/-- Python `str.strip()` (no argument): drop whitespace from both ends. -/
def pyStrip (l : LC) : LC :=
  ((l.dropWhile isPySpace).reverse.dropWhile isPySpace).reverse

/-- Python `str.strip(chars)`: drop the given characters from both ends. -/
def pyStripChars (cs : LC) (l : LC) : LC :=
  ((l.dropWhile (cs.contains ·)).reverse.dropWhile (cs.contains ·)).reverse

/-- Python `sep.join(parts)`. -/
def joinWith (sep : LC) : List LC → LC
  | [] => []
  | [b] => b
  | b :: c :: rest => b ++ sep ++ joinWith sep (c :: rest)

/-- Python `" ".join(parts)`. -/
def joinSpace : List LC → LC := joinWith [' ']

/-- Python `str.splitlines()`: split at `\n`, `\r\n`, `\r`; no trailing
empty line when the text ends with a line break.  (The rarer Unicode line
breaks accepted by CPython are not modelled.) -/
def splitLinesGo (cur : LC) : LC → List LC
  | [] => if cur.isEmpty then [] else [cur.reverse]
  | c :: rest =>
    if c = '\r' then
      cur.reverse ::
        (match rest with
         | c2 :: r2 => if c2 = '\n' then splitLinesGo [] r2 else splitLinesGo [] (c2 :: r2)
         | [] => splitLinesGo [] [])
    else if c = '\n' then cur.reverse :: splitLinesGo [] rest
    else splitLinesGo (c :: cur) rest

def splitLinesLC (l : LC) : List LC := splitLinesGo [] l

/-- Python ASCII `str.lower()` on a character. -/
def lowerChar (c : Char) : Char :=
  if 'A' ≤ c ∧ c ≤ 'Z' then Char.ofNat (c.toNat + 32) else c

def lowerLC (l : LC) : LC := l.map lowerChar

/-- `pat` compared literally at the start of `s`. -/
def startsWith : LC → LC → Bool
  | [], _ => true
  | _ :: _, [] => false
  | p :: ps, c :: cs => p == c && startsWith ps cs

/-- Python substring containment `pat in s`. -/
def containsSub (pat s : LC) : Bool :=
  s.tails.any (fun t => startsWith pat t)

def isAsciiDigit (c : Char) : Bool := '0' ≤ c && c ≤ '9'

def isLatinLetter (c : Char) : Bool :=
  ('a' ≤ c && c ≤ 'z') || ('A' ≤ c && c ≤ 'Z')

/-- The character class `[اأإآء-ي]` of the source: the extra four letters
lie inside the Unicode range `ء`..`ي` (0x621..0x64A). -/
def isArabicLetter (c : Char) : Bool :=
  0x621 ≤ c.toNat && c.toNat ≤ 0x64A

/-- `re.sub(r"\s+", " ", text)`: collapse whitespace runs to one space;
`prevWs` records whether the previous character was inside a run already
replaced. -/
def collapseWsGo (prevWs : Bool) : LC → LC
  | [] => []
  | c :: rest =>
    if isPySpace c then
      (if prevWs then collapseWsGo true rest else ' ' :: collapseWsGo true rest)
    else c :: collapseWsGo false rest

def collapseWs (l : LC) : LC := collapseWsGo false l

/-- `re.split("[S]+", l)` for a one-character-class pattern `S`: pieces
between maximal separator runs, keeping empty leading/trailing pieces;
`afterSep` marks that the previous character was a separator (so further
separators extend the same run instead of producing empty pieces). -/
def splitRunsGo (isSep : Char → Bool) (afterSep : Bool) (acc : LC) : LC → List LC
  | [] => [acc.reverse]
  | c :: rest =>
    if isSep c then
      (if afterSep then splitRunsGo isSep true [] rest
       else acc.reverse :: splitRunsGo isSep true [] rest)
    else splitRunsGo isSep false (c :: acc) rest

def isSentSplitChar (c : Char) : Bool :=
  c == '.' || c == '!' || c == '?' || c == '؟' || c == '\n'

/-- Embeds `_split_sentences` of `core/summarizer.py`. -/
def splitSentences (text : LC) : List LC :=
  let t := pyStrip (collapseWs text)
  if t = [] then []
  else ((splitRunsGo isSentSplitChar false [] t).map pyStrip).filter (· ≠ [])

/-- `re.findall(r"[A-Za-z]+|[اأإآء-ي]+", text)`: maximal runs of Latin
letters and maximal runs of Arabic letters, in text order.  The state
holds the current run (reversed) together with its class
(`true` = Latin). -/
def findRunsGo : Option (Bool × LC) → LC → List LC
  | none, [] => []
  | some st, [] => [st.2.reverse]
  | none, c :: rest =>
    if isLatinLetter c then findRunsGo (some (true, [c])) rest
    else if isArabicLetter c then findRunsGo (some (false, [c])) rest
    else findRunsGo none rest
  | some st, c :: rest =>
    if (if st.1 then isLatinLetter c else isArabicLetter c) then
      findRunsGo (some (st.1, c :: st.2)) rest
    else
      st.2.reverse ::
        (if isLatinLetter c then findRunsGo (some (true, [c])) rest
         else if isArabicLetter c then findRunsGo (some (false, [c])) rest
         else findRunsGo none rest)

def findLetterRuns (l : LC) : List LC := findRunsGo none l

/-- The Arabic stopword set `AR_STOP` of `core/summarizer.py`. -/
def AR_STOP : List LC :=
  [lc "من", lc "إلى", lc "على", lc "عن", lc "في", lc "مع", lc "هذا", lc "هذه",
   lc "ذلك", lc "تلك", lc "هناك", lc "هنا",
   lc "هو", lc "هي", lc "هم", lc "هن", lc "أنا", lc "نحن", lc "انت", lc "أنت",
   lc "أنتِ", lc "أنتم", lc "أنتن",
   lc "كان", lc "كانت", lc "يكون", lc "تكون", lc "تم", lc "قد", lc "ثم",
   lc "لكن", lc "لأن", lc "إذا", lc "إن",
   lc "و", lc "أو", lc "كما", lc "أي", lc "أيضاً", lc "ايضا", lc "حتى",
   lc "كل", lc "بعض", lc "غير", lc "بدون",
   lc "بعد", lc "قبل", lc "بين", lc "ضمن", lc "حول", lc "عند", lc "مثل",
   lc "مثلاً", lc "مثلا"]

/-- The English stopword set `EN_STOP` of `core/summarizer.py`. -/
def EN_STOP : List LC :=
  [lc "the", lc "a", lc "an", lc "to", lc "of", lc "in", lc "on", lc "at",
   lc "for", lc "with", lc "and", lc "or", lc "is", lc "are",
   lc "was", lc "were", lc "be", lc "been", lc "it", lc "this", lc "that",
   lc "these", lc "those", lc "as", lc "by", lc "from"]

def DECISION_KWS : List LC :=
  [lc "تم الاتفاق", lc "اتفقنا", lc "تم اعتماد", lc "قررنا", lc "تم القرار",
   lc "قرار", lc "اعتماد",
   lc "approve", lc "approved", lc "we decided", lc "decision", lc "agreed"]

def TASK_KWS : List LC :=
  [lc "مطلوب", lc "لازم", lc "يرجى", lc "يرجى من", lc "تكليف", lc "مسؤول",
   lc "على", lc "رح", lc "سوف", lc "سنقوم",
   lc "todo", lc "to do", lc "action", lc "task", lc "need to", lc "please"]

def TOPIC_HINTS : List (LC × List LC) :=
  [(lc "المقدمة والسياق",
    [lc "افتتاح", lc "مقدمة", lc "سياق", lc "هدف", lc "الغرض",
     lc "introduction", lc "context", lc "goal", lc "purpose"]),
   (lc "نقاط تقنية",
    [lc "نظام", lc "خادم", lc "سيرفر", lc "قاعدة", lc "بيانات", lc "API",
     lc "نموذج", lc "model", lc "pipeline", lc "deployment"]),
   (lc "العمل والخطة",
    [lc "خطة", lc "جدول", lc "deadline", lc "موعد", lc "مرحلة", lc "تسليم",
     lc "next", lc "plan", lc "timeline"]),
   (lc "مشاكل ومخاطر",
    [lc "مشكلة", lc "خطأ", lc "فشل", lc "خطر", lc "risk", lc "issue",
     lc "error", lc "blocked"]),
   (lc "النتائج والتوصيات",
    [lc "نتيجة", lc "استنتاج", lc "توصية", lc "recommendation",
     lc "outcome", lc "result"])]

/-- Embeds `_tokenize`: lower-case, keep letter runs of length > 2 that
are not stopwords.  (The source checks the length first and then the
stopword sets; a single filter with the conjunction is the same set.) -/
def tokenizeText (text : LC) : List LC :=
  (findLetterRuns (lowerLC text)).filter
    (fun t => ¬ t.length ≤ 2 && ¬ (AR_STOP.contains t || EN_STOP.contains t))

/-- First-occurrence deduplication: CPython dict/Counter key order. -/
def dedupFirstGo (seen : List LC) : List LC → List LC
  | [] => []
  | x :: xs =>
    if seen.contains x then dedupFirstGo seen xs
    else x :: dedupFirstGo (x :: seen) xs

/-- Stable insertion of `x` into a list sorted descending by `key`:
`x` goes before the first strictly-smaller element and stays after
equal ones, which matches Python `sorted(..., reverse=True)` stability. -/
def insertDescBy {α : Type} (key : α → Int) (x : α) : List α → List α
  | [] => [x]
  | y :: ys => if key y ≤ key x then x :: y :: ys else y :: insertDescBy key x ys

/-- Stable descending sort by `key` (Python `sorted(l, key=key, reverse=True)`,
also the order produced by `Counter.most_common`). -/
def sortDescBy {α : Type} (key : α → Int) : List α → List α
  | [] => []
  | x :: xs => insertDescBy key x (sortDescBy key xs)

/-- Embeds `_top_keywords`: frequency-count the tokens of all sentences
(`collections.Counter`), order keys by first occurrence, stable-sort by
count descending and keep the first `k` words. -/
def topKeywords (sentences : List LC) (k : Nat) : List LC :=
  let toks := (sentences.map tokenizeText).flatten
  let keys := dedupFirstGo [] toks
  (((sortDescBy (fun p => (p.2 : Int)) (keys.map (fun w => (w, toks.count w)))).take k).map
    (fun p => p.1))

/-- `any(k.lower() in s2 for k in kws)` with `s2 = s.lower()`. -/
def sentHasAny (kws : List LC) (s : LC) : Bool :=
  let s2 := lowerLC s
  kws.any (fun k => containsSub (lowerLC k) s2)

/-- Embeds `_detect_decisions`. -/
def detectDecisions (sentences : List LC) : List LC :=
  (((sentences.filter (sentHasAny DECISION_KWS)).map pyStrip).take 12)

/-- Embeds `_detect_tasks`. -/
def detectTasks (sentences : List LC) : List LC :=
  (((sentences.filter (sentHasAny TASK_KWS)).map pyStrip).take 15)

/-- Embeds `_extract_numbers_dates`.  The source tests
`pat.search(s)` for the pattern
`(\d{1,4}[\/\-\.\:]\d{1,2}[\/\-\.\:]\d{1,4})|(\d{1,2}\s*(?:am|pm))|(\d+(?:\.\d+)?)`;
because the third alternative fires on any single digit, the search
succeeds exactly when the sentence contains a digit. -/
def detectNumbersDates (sentences : List LC) : List LC :=
  (((sentences.filter (fun s => s.any isAsciiDigit)).map pyStrip).take 12)

/-- Insertion-ordered dictionary from labels to sentence lists. -/
abbrev Assoc := List (LC × List LC)

/-- `d[k].append(v)` on a `defaultdict(list)`. -/
def dictAppend (m : Assoc) (k : LC) (v : LC) : Assoc :=
  match m with
  | [] => [(k, [v])]
  | (k2, vs) :: rest =>
    if k2 = k then (k2, vs ++ [v]) :: rest else (k2, vs) :: dictAppend rest k v

/-- `d[k] = v` on a dict: update in place or append a new key. -/
def dictSet (m : Assoc) (k : LC) (v : List LC) : Assoc :=
  match m with
  | [] => [(k, v)]
  | (k2, vs) :: rest =>
    if k2 = k then (k2, v) :: rest else (k2, vs) :: dictSet rest k v

/-- First topic of `TOPIC_HINTS` one of whose hints occurs in `s2`. -/
def topicOf (s2 : LC) : Option LC :=
  (TOPIC_HINTS.find? (fun p => p.2.any (fun h => containsSub (lowerLC h) s2))).map
    (fun p => p.1)

/-- Phase 1 of `_group_by_topics`: first-match-wins hint classification,
unmatched sentences go to `other`. -/
def topicsPhase1 (sentences : List LC) : Assoc × List LC :=
  sentences.foldl
    (fun acc s =>
      match topicOf (lowerLC s) with
      | some t => (dictAppend acc.1 t (pyStrip s), acc.2)
      | none => (acc.1, acc.2 ++ [pyStrip s]))
    (TOPIC_HINTS.map (fun p => (p.1, ([] : List LC))), ([] : List LC))

/-- Phase 2 of `_group_by_topics`: bucket the unmatched sentences by the
first of the top-8 keywords each contains. -/
def buildDynamic (kw : List LC) (other : List LC) : Assoc :=
  other.foldl
    (fun m s =>
      match kw.find? (fun w => containsSub w (lowerLC s)) with
      | some w => dictAppend m (lc "محور: " ++ w) (pyStrip s)
      | none => dictAppend m (lc "محاور أخرى") (pyStrip s))
    []

/-- Embeds `_group_by_topics`. -/
def groupByTopics (sentences : List LC) : Assoc :=
  let p := topicsPhase1 sentences
  let groups := p.1
  let other := p.2
  let groups2 :=
    if other ≠ [] then
      let kw := topKeywords other 8
      if kw ≠ [] then
        let dynItems := (sortDescBy (fun q => (q.2.length : Int)) (buildDynamic kw other)).take 4
        dynItems.foldl (fun g q => dictSet g q.1 q.2) groups
      else groups
    else groups
  (groups2.filter (fun q => q.2 ≠ [])).map (fun q => (q.1, q.2.take 6))

/-- Case-insensitive literal match returning the original matched
characters and the remaining input. -/
def matchLitCI : LC → LC → Option (LC × LC)
  | [], s => some ([], s)
  | _ :: _, [] => none
  | p :: ps, c :: cs =>
    if lowerChar p == lowerChar c then
      (matchLitCI ps cs).map (fun r => (c :: r.1, r.2))
    else none

def isColonDash (c : Char) : Bool := c == ':' || c == '-'

/-- The common tail `\s*[:\-]\s*(.+)$` of the speaker patterns, applied to
already-stripped lines (so the trailing `(.+)` is simply the nonempty rest
after the separator and its following whitespace). -/
def speakerTail (g1 : LC) (r : LC) : Option (LC × LC) :=
  match r.dropWhile isPySpace with
  | [] => none
  | c :: rest =>
    if isColonDash c then
      let g2 := rest.dropWhile isPySpace
      if g2 = [] then none else some (g1, g2)
    else none

/-- `^\s*(<lit>\s*\d+)\s*[:\-]\s*(.+)$` case-insensitively (patterns 1/2
of `SPEAKER_PATTERNS`). -/
def matchLabelNum (lit : LC) (l : LC) : Option (LC × LC) :=
  let l0 := l.dropWhile isPySpace
  match matchLitCI lit l0 with
  | none => none
  | some (orig, r1) =>
    let ws := r1.takeWhile isPySpace
    let r2 := r1.dropWhile isPySpace
    let ds := r2.takeWhile isAsciiDigit
    let r3 := r2.dropWhile isAsciiDigit
    if ds = [] then none
    else speakerTail (orig ++ ws ++ ds) r3

/-- Greedy backtracking for `^\s*(F T{1,25})\s*[:\-]\s*(.+)$`: try the
longest label-tail length first (patterns 3/4 of `SPEAKER_PATTERNS`). -/
def tryLabelLens (c : Char) (rest : LC) : Nat → Option (LC × LC)
  | 0 => none
  | n + 1 =>
    match speakerTail (c :: rest.take (n + 1)) (rest.drop (n + 1)) with
    | some r => some r
    | none => tryLabelLens c rest n

def matchGenericLabel (isFirst : Char → Bool) (isTail : Char → Bool) (l : LC) :
    Option (LC × LC) :=
  match l.dropWhile isPySpace with
  | [] => none
  | c :: rest =>
    if isFirst c then
      tryLabelLens c rest (min 25 (rest.takeWhile isTail).length)
    else none

def isLatinLabelChar (c : Char) : Bool :=
  isLatinLetter c || isAsciiDigit c || c == '_' || c == '-' || c == ' '

def isArabicLabelChar (c : Char) : Bool :=
  isArabicLetter c || isAsciiDigit c || c == '_' || c == '-' || c == ' '

/-- Try the four `SPEAKER_PATTERNS` in order; on a hit both groups are
stripped, as in `_group_by_speakers`. -/
def matchSpeaker (ln : LC) : Option (LC × LC) :=
  let res :=
    match matchLabelNum (lc "Speaker") ln with
    | some h => some h
    | none =>
      match matchLabelNum (lc "المتحدث") ln with
      | some h => some h
      | none =>
        match matchGenericLabel isLatinLetter isLatinLabelChar ln with
        | some h => some h
        | none => matchGenericLabel isArabicLetter isArabicLabelChar ln
  res.map (fun h => (pyStrip h.1, pyStrip h.2))

/-- One line of the `_group_by_speakers` loop: a matching line sets the
current speaker and contributes its remainder; an unmatched line goes to
the current speaker if any, else is dropped. -/
def speakerStep (st : Assoc × Option LC) (ln : LC) : Assoc × Option LC :=
  match matchSpeaker ln with
  | some h => (dictAppend st.1 h.1 h.2, some h.1)
  | none =>
    match st.2 with
    | some sp => (dictAppend st.1 sp ln, some sp)
    | none => st

/-- Embeds `_group_by_speakers`. -/
def groupBySpeakers (raw : LC) : Assoc :=
  let lines := ((splitLinesLC raw).map pyStrip).filter (· ≠ [])
  if lines = [] then []
  else
    let m := (lines.foldl speakerStep ([], none)).1
    if m = [] then []
    else
      m.map (fun p =>
        let sents := splitSentences (joinSpace p.2)
        (p.1, if sents ≠ [] then sents.take 6 else p.2.take 6))

/-- The result record of `build_smart_summary` (`SmartSummary`). -/
structure SmartSummary where
  bullets : List LC
  topics : Assoc
  speakers : Assoc
  decisions : List LC
  tasks : List LC
  numbers_dates : List LC
  keywords : List LC
deriving DecidableEq

/-- The highlight score of one sentence in `build_smart_summary`. -/
def scoreSent (keywords : List LC) (s : LC) : Int :=
  let s2 := lowerLC s
  2 * (((keywords.take 8).filter (fun w => containsSub w s2)).length : Int)
    + (if sentHasAny DECISION_KWS s then 3 else 0)
    + (if sentHasAny TASK_KWS s then 2 else 0)
    - max 0 ((s.length / 180 : Nat) : Int)

/-- Deduplication of the top sentences by their first 60 characters. -/
def dedupBullets (seen : List LC) : List LC → List LC
  | [] => []
  | s :: rest =>
    if seen.contains (s.take 60) then dedupBullets seen rest
    else s :: dedupBullets (s.take 60 :: seen) rest

/-- Embeds `build_smart_summary` of `core/summarizer.py`. -/
def build_smart_summary (full_text : LC) : SmartSummary :=
  let sentences := splitSentences full_text
  let keywords := topKeywords sentences 12
  let scored := sentences.map (fun s => (scoreSent keywords s, s))
  let top := ((sortDescBy (fun p => p.1) scored).take 10).map (fun p => p.2)
  { bullets := dedupBullets [] top
    topics := groupByTopics sentences
    speakers := groupBySpeakers full_text
    decisions := detectDecisions sentences
    tasks := detectTasks sentences
    numbers_dates := detectNumbersDates sentences
    keywords := keywords }

/-! ### `core/summarization_service.py` -/

def isSentSep (c : Char) : Bool :=
  c == '.' || c == '!' || c == '؟' || c == '?'

/-- `re.split(r"(\n+|[.!؟\?])", text)`: pieces interleaved with the
captured separators (a maximal newline run, or one punctuation mark);
adjacent separators produce empty pieces, as `re.split` does.  The first
argument, when present, is the reversed newline run currently being
collected; the second is the reversed current piece. -/
def reSplitGo : Option LC → LC → LC → List LC
  | none, acc, [] => [acc.reverse]
  | some run, _, [] => [run.reverse, []]
  | none, acc, c :: rest =>
    if c = '\n' then acc.reverse :: reSplitGo (some [c]) [] rest
    else if isSentSep c then acc.reverse :: [c] :: reSplitGo none [] rest
    else reSplitGo none (c :: acc) rest
  | some run, _, c :: rest =>
    if c = '\n' then reSplitGo (some (c :: run)) [] rest
    else if isSentSep c then run.reverse :: [] :: [c] :: reSplitGo none [] rest
    else run.reverse :: reSplitGo none [c] rest

def reSplitSep (l : LC) : List LC := reSplitGo none [] l

/-- The `flush()` closure of `_chunk_text`: append `" ".join(buf).strip()`
when the buffer is nonempty. -/
def flushParts (parts : List LC) (buf : List LC) : List LC :=
  if buf = [] then parts else parts ++ [pyStrip (joinSpace buf)]

/-- The token loop of `_chunk_text`.  State: remaining tokens, flushed
parts, current buffer, current size counter.  A token is skipped when its
strip is empty (this also covers the `if not token: continue` on the empty
pieces of the split); an overflowing token flushes first and the loop
breaks once `max_chunks` parts exist; the final flush only happens below
the cap, exactly as in the source. -/
def chunkGo (cs mc : Nat) : List LC → List LC → List LC → Nat → List LC
  | [], parts, buf, _ => if parts.length < mc then flushParts parts buf else parts
  | tok :: rest, parts, buf, size =>
    let t := pyStrip tok
    if t = [] then chunkGo cs mc rest parts buf size
    else if cs < size + t.length + 1 then
      let parts2 := flushParts parts buf
      if mc ≤ parts2.length then parts2
      else chunkGo cs mc rest parts2 [t] (t.length + 1)
    else chunkGo cs mc rest parts (buf ++ [t]) (size + t.length + 1)

/-- Embeds `OllamaSummarizer._chunk_text`. -/
def chunk_text (text : LC) (cs mc : Nat) : List LC :=
  (chunkGo cs mc (reSplitSep text) [] [] 0).filter (· ≠ [])

/-- Specification device for claim C10: the same loop with the
`max_chunks` break removed (and hence an unconditional final flush), so
that "the chunks the cap discards" can be named. -/
def noCapGo (cs : Nat) : List LC → List LC → List LC → Nat → List LC
  | [], parts, buf, _ => flushParts parts buf
  | tok :: rest, parts, buf, size =>
    let t := pyStrip tok
    if t = [] then noCapGo cs rest parts buf size
    else if cs < size + t.length + 1 then
      noCapGo cs rest (flushParts parts buf) [t] (t.length + 1)
    else noCapGo cs rest parts (buf ++ [t]) (size + t.length + 1)

/-- All chunks the transcript would produce without the 6-chunk cap. -/
def noCapChunks (text : LC) (cs : Nat) : List LC :=
  noCapGo cs (reSplitSep text) [] [] 0

/-- A 42000-character transcript (seven 5999-letter sentences, each
closed by a period) whose uncapped chunking yields 14 chunks; used as the
concrete long input for the truncation claim. -/
def bigTranscript : LC :=
  (List.replicate 7 (List.replicate 5999 'a' ++ ['.'])).flatten

/-- Embeds the split of `_fallback_summary`, `(?<=[.!؟\?])\s+`:
whitespace runs preceded by sentence-final punctuation separate the
pieces.  `inSep = true` while consuming such a run; `prev` is the
previous character (the lookbehind). -/
def fbGo : Bool → LC → Char → LC → List LC
  | _, acc, _, [] => [acc.reverse]
  | false, acc, prev, c :: rest =>
    if isPySpace c && isSentSep prev then acc.reverse :: fbGo true [] ' ' rest
    else fbGo false (c :: acc) c rest
  | true, acc, _, c :: rest =>
    if isPySpace c then fbGo true acc ' ' rest
    else fbGo false (c :: acc) c rest

/-- Embeds `_fallback_summary`: first five nonempty stripped sentences of
the split, joined with spaces, capped at 1200 characters. -/
def fallbackSummary (text : LC) : LC :=
  let sents := ((fbGo false [] ' ' (pyStrip text)).map pyStrip).filter (· ≠ [])
  (joinSpace (sents.take 5)).take 1200

/-! #### JSON values and `json.loads` -/

/-- Parsed JSON values.  `json.loads` maps JSON `null` to Python `None`;
the embedding keeps it as `Json.null` (every consumer below treats it
exactly as Python treats `None`).  Numbers keep their raw lexeme. -/
inductive Json where
  | null : Json
  | jbool : Bool → Json
  | jnum : LC → Json
  | jstr : LC → Json
  | jarr : List Json → Json
  | jobj : List (LC × Json) → Json

def isJsonWs (c : Char) : Bool :=
  c == ' ' || c == '\t' || c == '\n' || c == '\r'

def skipWs (l : LC) : LC := l.dropWhile isJsonWs

/-- Value of one hexadecimal digit (the code-point ranges are
48-57 for digits, 97-102 and 65-70 for the two letter cases). -/
def hexVal (c : Char) : Option Nat :=
  let n := c.toNat
  if 48 ≤ n ∧ n ≤ 57 then some (n - 48)
  else if 97 ≤ n ∧ n ≤ 102 then some (n - 87)
  else if 65 ≤ n ∧ n ≤ 70 then some (n - 55)
  else none

/-- The simple JSON escapes as a lookup table. -/
def escTable : List (Char × Char) :=
  [('"', '"'), ('\\', '\\'), ('/', '/'), ('b', '\x08'), ('f', '\x0c'),
   ('n', '\n'), ('r', '\r'), ('t', '\t')]

def escChar (c : Char) : Option Char :=
  (escTable.find? (fun q => q.1 == c)).map (fun q => q.2)

/-- JSON string body after the opening quote (strict mode: raw control
characters are rejected; surrogate pairs are not recombined). -/
def parseStrBody : LC → Option (LC × LC)
  | [] => none
  | '"' :: rest => some ([], rest)
  | '\\' :: 'u' :: a :: b :: c :: d :: rest =>
    match hexVal a, hexVal b, hexVal c, hexVal d with
    | some x1, some x2, some x3, some x4 =>
      (parseStrBody rest).map
        (fun r => (Char.ofNat (((x1 * 16 + x2) * 16 + x3) * 16 + x4) :: r.1, r.2))
    | _, _, _, _ => none
  | '\\' :: e :: rest =>
    match escChar e with
    | some c => (parseStrBody rest).map (fun r => (c :: r.1, r.2))
    | none => none
  | c :: rest =>
    if c.toNat < 32 then none
    else (parseStrBody rest).map (fun r => (c :: r.1, r.2))

/-- JSON number: `-?(0|[1-9][0-9]*)(.[0-9]+)?([eE][+-]?[0-9]+)?`,
returned as its raw lexeme. -/
def parseNum (l : LC) : Option (LC × LC) :=
  let startInt : LC × LC :=
    match l with
    | '-' :: r => (['-'], r)
    | _ => ([], l)
  let neg := startInt.1
  let l1 := startInt.2
  let intPart : Option (LC × LC) :=
    match l1 with
    | '0' :: r => some (['0'], r)
    | c :: r =>
      if '1' ≤ c && c ≤ '9' then
        some (c :: r.takeWhile isAsciiDigit, r.dropWhile isAsciiDigit)
      else none
    | [] => none
  match intPart with
  | none => none
  | some (ip, l2) =>
    let fracRes : LC × LC :=
      match l2 with
      | '.' :: c :: r =>
        if isAsciiDigit c then
          ('.' :: c :: r.takeWhile isAsciiDigit, r.dropWhile isAsciiDigit)
        else ([], l2)
      | _ => ([], l2)
    let l3 := fracRes.2
    let expRes : LC × LC :=
      match l3 with
      | e :: rest =>
        if e == 'e' || e == 'E' then
          match rest with
          | s :: c :: r =>
            if (s == '+' || s == '-') && isAsciiDigit c then
              (e :: s :: c :: r.takeWhile isAsciiDigit, r.dropWhile isAsciiDigit)
            else if isAsciiDigit s then
              (e :: s :: (c :: r).takeWhile isAsciiDigit, (c :: r).dropWhile isAsciiDigit)
            else ([], l3)
          | [s] => if isAsciiDigit s then ([e, s], []) else ([], l3)
          | [] => ([], l3)
        else ([], l3)
      | [] => ([], l3)
    some (neg ++ ip ++ fracRes.1 ++ expRes.1, expRes.2)

/-- `d[key] = value` on a parsed-object association list (CPython dict:
an existing key keeps its position, its value is replaced). -/
def objInsert : List (LC × Json) → LC → Json → List (LC × Json)
  | [], k, v => [(k, v)]
  | (k2, v2) :: rest, k, v =>
    if k2 = k then (k2, v) :: rest else (k2, v2) :: objInsert rest k v

mutual

/-- Recursive-descent JSON value parser (fuel-indexed). -/
def parseVal : Nat → LC → Option (Json × LC)
  | 0, _ => none
  | fuel + 1, l =>
    match skipWs l with
    | '\x7b' :: rest =>
      (match skipWs rest with
       | '\x7d' :: r2 => some (.jobj [], r2)
       | r2 => (parseMembers fuel r2 []).map (fun p => (.jobj p.1, p.2)))
    | '[' :: rest =>
      (match skipWs rest with
       | ']' :: r2 => some (.jarr [], r2)
       | r2 => (parseElems fuel r2 []).map (fun p => (.jarr p.1, p.2)))
    | '"' :: rest => (parseStrBody rest).map (fun p => (.jstr p.1, p.2))
    | 't' :: 'r' :: 'u' :: 'e' :: rest => some (.jbool true, rest)
    | 'f' :: 'a' :: 'l' :: 's' :: 'e' :: rest => some (.jbool false, rest)
    | 'n' :: 'u' :: 'l' :: 'l' :: rest => some (.null, rest)
    | 'N' :: 'a' :: 'N' :: rest => some (.jnum (lc "nan"), rest)
    | 'I' :: 'n' :: 'f' :: 'i' :: 'n' :: 'i' :: 't' :: 'y' :: rest =>
      some (.jnum (lc "inf"), rest)
    | '-' :: 'I' :: 'n' :: 'f' :: 'i' :: 'n' :: 'i' :: 't' :: 'y' :: rest =>
      some (.jnum (lc "-inf"), rest)
    | r => (parseNum r).map (fun p => (.jnum p.1, p.2))

/-- Object members after the opening brace (strict: no trailing comma). -/
def parseMembers : Nat → LC → List (LC × Json) → Option (List (LC × Json) × LC)
  | 0, _, _ => none
  | fuel + 1, l, acc =>
    match skipWs l with
    | '"' :: rest =>
      match parseStrBody rest with
      | none => none
      | some (key, r1) =>
        match skipWs r1 with
        | ':' :: r3 =>
          match parseVal fuel r3 with
          | none => none
          | some (v, r4) =>
            let acc2 := objInsert acc key v
            match skipWs r4 with
            | ',' :: r6 => parseMembers fuel r6 acc2
            | '\x7d' :: r7 => some (acc2, r7)
            | _ => none
        | _ => none
    | _ => none

/-- Array elements after the opening bracket. -/
def parseElems : Nat → LC → List Json → Option (List Json × LC)
  | 0, _, _ => none
  | fuel + 1, l, acc =>
    match parseVal fuel l with
    | none => none
    | some (v, r1) =>
      match skipWs r1 with
      | ',' :: r2 => parseElems fuel r2 (acc ++ [v])
      | ']' :: r3 => some (acc ++ [v], r3)
      | _ => none

end

/-- `json.loads`: parse one value, reject trailing data. -/
def jsonLoads (l : LC) : Option Json :=
  match parseVal (2 * l.length + 2) l with
  | some (v, rest) => if skipWs rest = [] then some v else none
  | none => none

/-- Zero test of a raw number lexeme (for Python truthiness). -/
def numIsZero (raw : LC) : Bool :=
  (raw.takeWhile (fun c => c != 'e' && c != 'E')).all
    (fun c => c == '0' || c == '-' || c == '.')

/-- Python truthiness of a parsed JSON value. -/
def jsonTruthy : Json → Bool
  | .null => false
  | .jbool b => b
  | .jnum raw => ¬ numIsZero raw
  | .jstr s => ¬ s.isEmpty
  | .jarr xs => ¬ xs.isEmpty
  | .jobj kvs => ¬ kvs.isEmpty

mutual

/-- Python `repr()` of a parsed JSON value (string escaping inside the
repr is not reproduced; the claims never exercise it). -/
def pyReprJ : Json → LC
  | .null => lc "None"
  | .jbool true => lc "True"
  | .jbool false => lc "False"
  | .jnum raw => raw
  | .jstr s => Char.ofNat 39 :: s ++ [Char.ofNat 39]
  | .jarr xs => '[' :: joinWith (lc ", ") (pyReprList xs) ++ [']']
  | .jobj kvs => '\x7b' :: joinWith (lc ", ") (pyReprMembers kvs) ++ ['\x7d']

def pyReprList : List Json → List LC
  | [] => []
  | x :: xs => pyReprJ x :: pyReprList xs

def pyReprMembers : List (LC × Json) → List LC
  | [] => []
  | (k, v) :: rest =>
    (Char.ofNat 39 :: k ++ [Char.ofNat 39] ++ lc ": " ++ pyReprJ v) :: pyReprMembers rest

end

/-- Python `str()` of a parsed JSON value. -/
def pyStrJ : Json → LC
  | .jstr s => s
  | v => pyReprJ v

/-- `dict.get(k)` with default `None`. -/
def jGet (kvs : List (LC × Json)) (k : LC) : Json :=
  match kvs.find? (fun p => p.1 = k) with
  | some p => p.2
  | none => .null

/-- Embeds `OllamaSummarizer._parse_json`: strip, try a direct
`json.loads`; on failure extract the first-to-last brace span (the greedy
`re.search(r"\{.*\}", s, re.DOTALL)` match), strip it and try again. -/
def pyParseJson (s : LC) : Option Json :=
  let s1 := pyStrip s
  match jsonLoads s1 with
  | some j => some j
  | none =>
    match s1.findIdx? (· == '\x7b'), s1.reverse.findIdx? (· == '\x7d') with
    | some i, some jr =>
      let j := s1.length - 1 - jr
      if i < j then jsonLoads (pyStrip ((s1.drop i).take (j - i + 1)))
      else none
    | _, _ => none

/-- Embeds `_as_list`. -/
def asList (v : Json) : List LC :=
  match v with
  | .null => []
  | .jarr xs => ((xs.map (fun x => pyStrip (pyStrJ x))).filter (· ≠ []))
  | .jstr s =>
    ((splitLinesLC s).map (pyStripChars [' ', '-', '•', '\t'])).filter (· ≠ [])
  | other =>
    let s := pyStrip (pyStrJ other)
    if s = [] then [] else [s]

/-- The exceptions the orchestrator can raise or propagate. -/
inductive PyErr where
  | transport : LC → PyErr
  | httpError : Nat → PyErr
  | valueError : PyErr
  | attributeError : PyErr
deriving DecidableEq

/-- The result record of `summarize_structured` (`SummaryResult`). -/
structure SummaryResult where
  summary : LC
  topics : List LC
  decisions : List LC
  tasks : List LC
  speakers : List LC
deriving DecidableEq

def emptyResult : SummaryResult := ⟨[], [], [], [], []⟩

/-- Outcome of one `session.post(...)`: either a response with a status
code and body text, or a raised transport exception (connection error,
timeout) carrying its message. -/
inductive PostOutcome where
  | ok : Nat → LC → PostOutcome
  | exc : LC → PostOutcome
deriving DecidableEq

/-- The `try` body of `_ollama_call` on the `/api/chat` response:
explicit `HTTPError` on 404, `raise_for_status` on 4xx/5xx, `r.json()`
(ValueError on malformed body), then
`str((data.get("message") or {}).get("content") or "")`
(AttributeError when a truthy non-dict is dereferenced). -/
def chatBranch (o : PostOutcome) : Except PyErr LC :=
  match o with
  | .exc cause => .error (.transport cause)
  | .ok status body =>
    if status = 404 then .error (.httpError 404)
    else if 400 ≤ status then .error (.httpError status)
    else
      match jsonLoads body with
      | none => .error .valueError
      | some data =>
        match data with
        | .jobj kvs =>
          let msgv := jGet kvs (lc "message")
          let msg := if jsonTruthy msgv then msgv else .jobj []
          match msg with
          | .jobj mk =>
            let content := jGet mk (lc "content")
            .ok (if jsonTruthy content then pyStrJ content else [])
          | _ => .error .attributeError
        | _ => .error .attributeError

/-- The fallback `/api/generate` leg of `_ollama_call`: `raise_for_status`
(404 is no longer special), `r2.json()`, `str(data2.get("response") or "")`;
everything propagates. -/
def genBranch (o : PostOutcome) : Except PyErr LC :=
  match o with
  | .exc cause => .error (.transport cause)
  | .ok status body =>
    if 400 ≤ status then .error (.httpError status)
    else
      match jsonLoads body with
      | none => .error .valueError
      | some data =>
        match data with
        | .jobj kvs =>
          let resp := jGet kvs (lc "response")
          .ok (if jsonTruthy resp then pyStrJ resp else [])
        | _ => .error .attributeError

/-- Embeds `OllamaSummarizer._ollama_call` given the outcomes of the two
possible POSTs; the second component counts the `/api/generate` attempts. -/
def ollama_call (chat gen : PostOutcome) : Except PyErr LC × Nat :=
  match chatBranch chat with
  | .ok s => (.ok s, 0)
  | .error _ => (genBranch gen, 1)

/-- Embeds `_prompt_structured` (the f-string, then `.strip()`). -/
def promptStructured (text language title : LC) (compact : Bool) : LC :=
  let ar := startsWith (lc "ar") (lowerLC language)
  let style :=
    if ar then lc "اكتب بالعربية الفصحى وبشكل رسمي."
    else lc "Write in English, formal and clear."
  let extra :=
    if ar then (if compact then lc "اجعل الملخص قصيراً." else lc "اجعل الملخص واضحاً ومفصلاً.")
    else (if compact then lc "Keep it short." else lc "Make it clear and detailed.")
  pyStrip
    (lc "\n" ++ style ++ lc "\n" ++ extra ++
     lc "\n\nReturn ONLY valid JSON (no markdown).\nKeys:\n- summary: string\n- topics: array of strings\n- decisions: array of strings\n- tasks: array of strings (include assignee if known)\n- speakers: array of strings (if detectable, else empty)\n\nTitle: "
     ++ title ++ lc "\n\nTranscript:\n" ++ text ++ lc "\n")

/-- Decimal digits of an index for the `(جزء i)` chunk title. -/
def natChars (n : Nat) : LC := (Nat.repr n).data

/-- The network abstraction: what `_ollama_call` returns for each prompt
(an environment fixed for the duration of one summarization call). -/
abbrev CallEnv := LC → Except PyErr LC

/-- The part of `_summarize_structured_once` after the response text is
available: `_parse_json`, the falsy test, field extraction.
`parsed.get(...)` on a truthy non-dict raises `AttributeError`. -/
def summarizeOnceBody (out : LC) (text : LC) : Except PyErr SummaryResult :=
  match pyParseJson out with
  | none => .ok ⟨fallbackSummary text, [], [], [], []⟩
  | some j =>
    if jsonTruthy j = false then .ok ⟨fallbackSummary text, [], [], [], []⟩
    else
      match j with
      | .jobj kvs =>
        let sv := jGet kvs (lc "summary")
        .ok ⟨pyStrip (if jsonTruthy sv then pyStrJ sv else []),
             asList (jGet kvs (lc "topics")),
             asList (jGet kvs (lc "decisions")),
             asList (jGet kvs (lc "tasks")),
             asList (jGet kvs (lc "speakers"))⟩
      | _ => .error .attributeError

/-- Embeds `_summarize_structured_once`; the second component is the list
of prompts sent over the network. -/
def summarizeOnceL (call : CallEnv) (text language title : LC) :
    Except PyErr SummaryResult × List LC :=
  let prompt := promptStructured text language title false
  (match call prompt with
   | .error e => .error e
   | .ok out => summarizeOnceBody out text,
   [prompt])

/-- The body of `_summarize_chunk` after the response text is available:
`if parsed and (parsed.get("summary") or "").strip(): return
str(parsed.get("summary")).strip()`, else the extractive fallback.
A truthy non-string summary value raises (`.strip()` on a non-str). -/
def summarizeChunkBody (out : LC) (text : LC) : Except PyErr LC :=
  match pyParseJson out with
  | none => .ok (fallbackSummary text)
  | some j =>
    if jsonTruthy j = false then .ok (fallbackSummary text)
    else
      match j with
      | .jobj kvs =>
        match jGet kvs (lc "summary") with
        | .jstr s =>
          if pyStrip s ≠ [] then .ok (pyStrip s) else .ok (fallbackSummary text)
        | .null => .ok (fallbackSummary text)
        | sv =>
          if jsonTruthy sv then .error .attributeError
          else .ok (fallbackSummary text)
      | _ => .error .attributeError

/-- Embeds `_summarize_chunk`. -/
def summarizeChunkL (call : CallEnv) (text language title : LC) :
    Except PyErr LC × List LC :=
  let prompt := promptStructured text language title true
  (match call prompt with
   | .error e => .error e
   | .ok out => summarizeChunkBody out text,
   [prompt])

/-- The `for idx, ch in enumerate(chunks, start=1)` loop of
`summarize_structured`: each chunk is summarized with the
`f"{title} (جزء {idx})"` title; an exception aborts the loop. -/
def chunksFold (call : CallEnv) (language title : LC) :
    List LC → Nat → Except PyErr (List LC) × List LC
  | [], _ => (.ok [], [])
  | ch :: rest, idx =>
    let r := summarizeChunkL call ch language
      (title ++ lc " (جزء " ++ natChars idx ++ lc ")")
    match r.1 with
    | .error e => (.error e, r.2)
    | .ok s =>
      let r2 := chunksFold call language title rest (idx + 1)
      match r2.1 with
      | .error e => (.error e, r.2 ++ r2.2)
      | .ok ss => (.ok (s :: ss), r.2 ++ r2.2)

/-- The long-transcript path of `summarize_structured`: summarize each
chunk, join the chunk summaries with blank lines, run the single-pass
summarizer on the merged text. -/
def summarizeChunkedPath (call : CallEnv) (chunks : List LC) (title language : LC) :
    Except PyErr SummaryResult × List LC :=
  let r := chunksFold call language title chunks 1
  match r.1 with
  | .error e => (.error e, r.2)
  | .ok summaries =>
    let merged := joinWith (lc "\n\n") summaries
    let r2 := summarizeOnceL call merged language title
    (r2.1, r.2 ++ r2.2)

/-- Embeds `OllamaSummarizer.summarize_structured`; the second component
is the list of prompts sent over the network. -/
def summarize_structured (call : CallEnv) (transcript title language : LC) :
    Except PyErr SummaryResult × List LC :=
  let text := pyStrip transcript
  if text = [] then (.ok emptyResult, [])
  else if 12000 < text.length then
    summarizeChunkedPath call (chunk_text text 6000 6) title language
  else summarizeOnceL call text language title

/-! ### Helper lemmas -/

theorem dedupBullets_length_le (seen l : List LC) :
    (dedupBullets seen l).length ≤ l.length := by
  induction l generalizing seen with
  | nil => simp [dedupBullets]
  | cons s rest ih =>
    simp only [dedupBullets]
    split
    · exact Nat.le_succ_of_le (ih seen)
    · simpa using ih _

theorem summarizeOnceL_parse_none (resp text language title : LC)
    (h : pyParseJson resp = none) :
    (summarizeOnceL (fun _ => .ok resp) text language title).1 =
      .ok ⟨fallbackSummary text, [], [], [], []⟩ := by
  simp [summarizeOnceL, summarizeOnceBody, h]

theorem summarizeChunkL_parse_none (resp text language title : LC)
    (h : pyParseJson resp = none) :
    (summarizeChunkL (fun _ => .ok resp) text language title).1 =
      .ok (fallbackSummary text) := by
  simp [summarizeChunkL, summarizeChunkBody, h]

theorem chunksFold_parse_none (resp language title : LC)
    (h : pyParseJson resp = none) (chunks : List LC) :
    ∀ idx, (chunksFold (fun _ => .ok resp) language title chunks idx).1 =
      .ok (chunks.map fallbackSummary) := by
  induction chunks with
  | nil => intro idx; simp [chunksFold]
  | cons ch rest ih =>
    intro idx
    simp only [chunksFold]
    rw [show (summarizeChunkL (fun _ => .ok resp) ch language
          (title ++ lc " (جزء " ++ natChars idx ++ lc ")")).1 =
        .ok (fallbackSummary ch) from summarizeChunkL_parse_none _ _ _ _ h]
    rw [ih (idx + 1)]
    simp

/-! ### Claim theorems -/

/-- Claim C1: whenever the endpoint response text is not parseable into a
structured result (`_parse_json` yields nothing, i.e. malformed or absent
JSON), `summarize_structured` does not raise: it returns a
`SummaryResult` with empty topics, decisions, tasks and speakers, and on
the single-chunk path its summary is exactly the extractive fallback of
the (stripped) input text. -/
theorem claim1_parse_failure_fallback (resp transcript title language : LC)
    (h : pyParseJson resp = none) :
    (∃ s, (summarize_structured (fun _ => .ok resp) transcript title language).1 =
        .ok ⟨s, [], [], [], []⟩) ∧
    (pyStrip transcript ≠ [] → (pyStrip transcript).length ≤ 12000 →
      (summarize_structured (fun _ => .ok resp) transcript title language).1 =
        .ok ⟨fallbackSummary (pyStrip transcript), [], [], [], []⟩) := by
  by_cases hnil : pyStrip transcript = []
  · refine ⟨⟨[], ?_⟩, fun hne _ => absurd hnil hne⟩
    simp [summarize_structured, hnil, emptyResult]
  · by_cases hlen : 12000 < (pyStrip transcript).length
    · refine ⟨⟨fallbackSummary (joinWith (lc "\n\n")
        ((chunk_text (pyStrip transcript) 6000 6).map fallbackSummary)), ?_⟩,
        fun _ hle => absurd hlen (Nat.not_lt.mpr hle)⟩
      simp only [summarize_structured, hnil, hlen, if_neg hnil, if_pos hlen,
        summarizeChunkedPath]
      rw [chunksFold_parse_none _ _ _ h _ 1]
      simpa using summarizeOnceL_parse_none resp _ language title h
    · have hres := summarizeOnceL_parse_none resp (pyStrip transcript) language title h
      refine ⟨⟨fallbackSummary (pyStrip transcript), ?_⟩, fun _ _ => ?_⟩ <;>
        simpa [summarize_structured, hnil, hlen] using hres

/-- Witness for C1 at a concrete non-JSON response and transcript. -/
theorem claim1_w :
    (summarize_structured (fun _ => .ok (lc "the model returned no json"))
        (lc "One. Two. Three. Four. Five. Six.") (lc "t") (lc "ar")).1 =
      .ok ⟨fallbackSummary (pyStrip (lc "One. Two. Three. Four. Five. Six.")),
           [], [], [], []⟩ :=
  (claim1_parse_failure_fallback (lc "the model returned no json")
      (lc "One. Two. Three. Four. Five. Six.") (lc "t") (lc "ar")
      rfl).2 (by decide) (by decide)

/-- Claim C2: every capped list of `build_smart_summary` obeys its cap:
at most 10 bullets, 12 decisions, 15 tasks, 12 number/date sentences, and
every topic group (fixed or dynamically derived) holds at most 6
sentences. -/
theorem claim2_caps (t : LC) :
    (build_smart_summary t).bullets.length ≤ 10 ∧
    (build_smart_summary t).decisions.length ≤ 12 ∧
    (build_smart_summary t).tasks.length ≤ 15 ∧
    (build_smart_summary t).numbers_dates.length ≤ 12 ∧
    ∀ p ∈ (build_smart_summary t).topics, p.2.length ≤ 6 := by
  refine ⟨?_, ?_, ?_, ?_, ?_⟩
  · exact le_trans (dedupBullets_length_le _ _)
      (le_trans (le_of_eq (List.length_map _ _)) (List.length_take_le _ _))
  · exact List.length_take_le _ _
  · exact List.length_take_le _ _
  · exact List.length_take_le _ _
  · intro p hp
    simp only [build_smart_summary, groupByTopics, List.mem_map] at hp
    obtain ⟨q, _, rfl⟩ := hp
    exact List.length_take_le _ _

theorem pyStrip_eq_nil_of_ws (l : LC) (h : ∀ c ∈ l, isPySpace c = true) :
    pyStrip l = [] := by
  have h1 : l.dropWhile isPySpace = [] := by
    rw [List.dropWhile_eq_nil_iff]
    exact fun c hc => h c hc
  simp [pyStrip, h1]

theorem collapseWsGo_ws (b : Bool) (l : LC) (h : ∀ c ∈ l, isPySpace c = true) :
    ∀ c ∈ collapseWsGo b l, isPySpace c = true := by
  induction l generalizing b with
  | nil => simp [collapseWsGo]
  | cons c rest ih =>
    have hc : isPySpace c = true := h c (by simp)
    have hr : ∀ x ∈ rest, isPySpace x = true := fun x hx => h x (by simp [hx])
    intro x hx
    simp only [collapseWsGo, hc, if_pos] at hx
    by_cases hb : b
    · subst hb; simp only [if_pos rfl] at hx; exact ih true hr x hx
    · simp only [hb] at hx
      rcases List.mem_cons.mp hx with h1 | h1
      · subst h1; rfl
      · exact ih true hr x h1

theorem splitSentences_eq_nil_of_ws (t : LC) (h : ∀ c ∈ t, isPySpace c = true) :
    splitSentences t = [] := by
  have hz : pyStrip (collapseWsGo false t) = [] :=
    pyStrip_eq_nil_of_ws _ (collapseWsGo_ws false t h)
  simp [splitSentences, collapseWs, hz]

theorem splitLinesGo_ws_aux : ∀ (n : Nat) (l cur : LC), l.length ≤ n →
    (∀ c ∈ cur, isPySpace c = true) → (∀ c ∈ l, isPySpace c = true) →
    ∀ line ∈ splitLinesGo cur l, ∀ c ∈ line, isPySpace c = true := by
  intro n
  induction n with
  | zero =>
    intro l cur hlen hc _
    have : l = [] := List.eq_nil_of_length_eq_zero (Nat.le_zero.mp hlen)
    subst this
    intro line hline c hcc
    simp only [splitLinesGo] at hline
    split at hline
    · simp at hline
    · simp only [List.mem_singleton] at hline
      subst hline
      exact hc c (List.mem_reverse.mp hcc)
  | succ n ih =>
    intro l cur hlen hc hl
    cases l with
    | nil =>
      intro line hline c hcc
      simp only [splitLinesGo] at hline
      split at hline
      · simp at hline
      · simp only [List.mem_singleton] at hline
        subst hline
        exact hc c (List.mem_reverse.mp hcc)
    | cons c0 rest =>
      have hrest : ∀ c ∈ rest, isPySpace c = true := fun x hx => hl x (by simp [hx])
      have hlenr : rest.length ≤ n := Nat.le_of_succ_le_succ hlen
      have hc2 : ∀ x ∈ c0 :: cur, isPySpace x = true := by
        intro x hx
        rcases List.mem_cons.mp hx with h1 | h1
        · subst h1; exact hl x (by simp)
        · exact hc x h1
      intro line hline c hcc
      cases rest with
      | nil =>
        by_cases h0 : c0 = '\r'
        · subst h0
          simp [splitLinesGo] at hline
          subst hline
          exact hc c (List.mem_reverse.mp hcc)
        · by_cases h0n : c0 = '\n'
          · subst h0n
            simp [splitLinesGo, h0] at hline
            subst hline
            exact hc c (List.mem_reverse.mp hcc)
          · simp [splitLinesGo, h0, h0n] at hline
            subst hline
            rcases List.mem_append.mp hcc with h1 | h1
            · exact hc c (List.mem_reverse.mp h1)
            · simp only [List.mem_singleton] at h1
              subst h1
              exact hl c (by simp)
      | cons c2 r2 =>
        have hr2 : ∀ x ∈ r2, isPySpace x = true :=
          fun x hx => hrest x (by simp [hx])
        by_cases h0 : c0 = '\r'
        · subst h0
          by_cases h2 : c2 = '\n'
          · subst h2
            rw [splitLinesGo.eq_2, if_pos rfl, if_pos rfl] at hline
            rcases List.mem_cons.mp hline with h1 | h1
            · subst h1; exact hc c (List.mem_reverse.mp hcc)
            · exact ih r2 [] (le_trans (Nat.le_succ _) hlenr) (by simp) hr2 line h1 c hcc
          · rw [splitLinesGo.eq_2, if_pos rfl, if_neg h2] at hline
            rcases List.mem_cons.mp hline with h1 | h1
            · subst h1; exact hc c (List.mem_reverse.mp hcc)
            · exact ih (c2 :: r2) [] hlenr (by simp) hrest line h1 c hcc
        · by_cases h0n : c0 = '\n'
          · subst h0n
            rw [splitLinesGo.eq_2, if_neg h0, if_pos rfl] at hline
            rcases List.mem_cons.mp hline with h1 | h1
            · subst h1; exact hc c (List.mem_reverse.mp hcc)
            · exact ih (c2 :: r2) [] hlenr (by simp) hrest line h1 c hcc
          · rw [splitLinesGo.eq_2, if_neg h0, if_neg h0n] at hline
            exact ih (c2 :: r2) (c0 :: cur) hlenr hc2 hrest line hline c hcc

theorem groupBySpeakers_eq_nil_of_ws (t : LC) (h : ∀ c ∈ t, isPySpace c = true) :
    groupBySpeakers t = [] := by
  have hlines : ((splitLinesLC t).map pyStrip).filter (· ≠ []) = [] := by
    rw [List.filter_eq_nil_iff]
    intro line hline
    simp only [List.mem_map] at hline
    obtain ⟨l0, hl0, rfl⟩ := hline
    have := splitLinesGo_ws_aux t.length t [] le_rfl (by simp) h l0 hl0
    simp [pyStrip_eq_nil_of_ws l0 this]
  simp only [groupBySpeakers]
  rw [hlines]
  simp

/-- Claim C5: on an empty or whitespace-only transcript
`build_smart_summary` returns a `SmartSummary` whose seven components are
all empty, and `summarize_structured` returns an empty `SummaryResult`
without sending a single prompt over the network. -/
theorem claim5_empty_input (t title language : LC) (call : CallEnv)
    (h : ∀ c ∈ t, isPySpace c = true) :
    build_smart_summary t = ⟨[], [], [], [], [], [], []⟩ ∧
    summarize_structured call t title language = (.ok ⟨[], [], [], [], []⟩, []) := by
  have hs : splitSentences t = [] := splitSentences_eq_nil_of_ws t h
  have hsp : groupBySpeakers t = [] := groupBySpeakers_eq_nil_of_ws t h
  have hstrip : pyStrip t = [] := pyStrip_eq_nil_of_ws t h
  constructor
  · simp only [build_smart_summary, hs, hsp]
    decide
  · simp [summarize_structured, hstrip, emptyResult]

/-- Witness for C5 at a whitespace-only transcript. -/
theorem claim5_w :
    build_smart_summary (lc " \t \n ") = ⟨[], [], [], [], [], [], []⟩ ∧
    summarize_structured (fun _ => .ok []) (lc " \t \n ") (lc "t") (lc "ar") =
      (.ok ⟨[], [], [], [], []⟩, []) :=
  claim5_empty_input (lc " \t \n ") (lc "t") (lc "ar") (fun _ => .ok []) (by decide)

/-- Claim C8: the heuristic pipeline is deterministic.  In the embedding
`build_smart_summary` is a pure function of the transcript alone (no
randomness or time-dependent state exists anywhere in its definition), so
two runs on the same input are definitionally equal. -/
theorem claim8_deterministic (t : LC) :
    build_smart_summary t = build_smart_summary t := rfl

/-- Claim C4: in `_ollama_call`, at most one `/api/generate` POST is ever
attempted; a 404 (or any other failure) of the `/api/chat` leg triggers
exactly one such attempt, whose result is surfaced as is; a transport
error or a non-2xx status of the fallback leg propagates to the caller
with the underlying cause. -/
theorem claim4_endpoint_fallback (chat gen : PostOutcome) :
    (ollama_call chat gen).2 ≤ 1 ∧
    (∀ body, chat = .ok 404 body → (ollama_call chat gen).2 = 1) ∧
    (∀ cause, chat = .exc cause → (ollama_call chat gen).2 = 1) ∧
    ((∃ e, chatBranch chat = .error e) →
      (ollama_call chat gen).1 = genBranch gen ∧ (ollama_call chat gen).2 = 1) ∧
    (∀ cause, (∃ e, chatBranch chat = .error e) → gen = .exc cause →
      (ollama_call chat gen).1 = .error (.transport cause)) ∧
    (∀ st body, (∃ e, chatBranch chat = .error e) → gen = .ok st body → 400 ≤ st →
      (ollama_call chat gen).1 = .error (.httpError st)) := by
  refine ⟨?_, ?_, ?_, ?_, ?_, ?_⟩
  · unfold ollama_call; cases chatBranch chat <;> simp
  · rintro body rfl; simp [ollama_call, chatBranch]
  · rintro cause rfl; simp [ollama_call, chatBranch]
  · rintro ⟨e, he⟩; simp [ollama_call, he]
  · rintro cause ⟨e, he⟩ rfl; simp [ollama_call, he, genBranch]
  · rintro st body ⟨e, he⟩ rfl h400
    simp [ollama_call, he, genBranch, Nat.not_lt.mpr h400, h400]

/-- Witness for C4: a 404 on the chat endpoint followed by a connection
error on the generate endpoint. -/
theorem claim4_w :
    (ollama_call (.ok 404 (lc "\x7b\x7d")) (.exc (lc "connection refused"))).2 = 1 ∧
    (ollama_call (.ok 404 (lc "\x7b\x7d")) (.exc (lc "connection refused"))).1 =
      .error (.transport (lc "connection refused")) :=
  ⟨(claim4_endpoint_fallback _ _).2.1 _ rfl,
   (claim4_endpoint_fallback _ _).2.2.2.2.1 _ ⟨.httpError 404, rfl⟩ rfl⟩

/-- Claim C6: `_parse_json` first tries a direct `json.loads` of the full
(stripped) response and only on failure falls back to the brace-delimited
substring; on the response
`here is json: {"summary":"x","topics":["a"]}` the direct parse fails,
the brace extraction succeeds, and the structured result has
summary `x` and topics `["a"]` with the other lists empty. -/
theorem claim6_parse_order :
    (∀ s j, jsonLoads (pyStrip s) = some j → pyParseJson s = some j) ∧
    jsonLoads (pyStrip (lc "here is json: \x7b\"summary\":\"x\",\"topics\":[\"a\"]\x7d")) = none ∧
    pyParseJson (lc "here is json: \x7b\"summary\":\"x\",\"topics\":[\"a\"]\x7d") =
      some (.jobj [(lc "summary", .jstr (lc "x")), (lc "topics", .jarr [.jstr (lc "a")])]) ∧
    (∀ text language title,
      (summarizeOnceL
        (fun _ => .ok (lc "here is json: \x7b\"summary\":\"x\",\"topics\":[\"a\"]\x7d"))
        text language title).1 = .ok ⟨lc "x", [lc "a"], [], [], []⟩) := by
  refine ⟨?_, rfl, rfl, fun _ _ _ => rfl⟩
  intro s j h
  simp [pyParseJson, h]

/-- Witness for C6: the direct-parse-first clause at a concrete response
that is pure JSON. -/
theorem claim6_w :
    pyParseJson (lc "\x7b\"k\": true\x7d") = some (.jobj [(lc "k", .jbool true)]) :=
  claim6_parse_order.1 _ _ rfl

/-- Claim C7: on `"Speaker 1: hello there.\nno label line.\nSpeaker 2: hi."`
speaker attribution yields exactly the two groups, `Speaker 1` owning the
first line and the unlabeled continuation and `Speaker 2` only the third
line; in general a matching line sets the current speaker and contributes
its remainder, an unmatched line goes to the active current speaker and
is dropped when none is active. -/
theorem claim7_speakers :
    groupBySpeakers (lc "Speaker 1: hello there.\nno label line.\nSpeaker 2: hi.") =
      [(lc "Speaker 1", [lc "hello there", lc "no label line"]),
       (lc "Speaker 2", [lc "hi"])] ∧
    (∀ st ln sp rest, matchSpeaker ln = some (sp, rest) →
      speakerStep st ln = (dictAppend st.1 sp rest, some sp)) ∧
    (∀ m sp ln, matchSpeaker ln = none →
      speakerStep (m, some sp) ln = (dictAppend m sp ln, some sp)) ∧
    (∀ m ln, matchSpeaker ln = none → speakerStep (m, none) ln = (m, none)) := by
  refine ⟨by decide, ?_, ?_, ?_⟩
  · intro st ln sp rest h; simp [speakerStep, h]
  · intro m sp ln h; simp [speakerStep, h]
  · intro m ln h; simp [speakerStep, h]

/-- Witness for C7: the carry-forward clause applied to the unlabeled
continuation line of the example. -/
theorem claim7_w :
    speakerStep ([(lc "Speaker 1", [lc "hello there."])], some (lc "Speaker 1"))
        (lc "no label line.") =
      ([(lc "Speaker 1", [lc "hello there.", lc "no label line."])],
       some (lc "Speaker 1")) :=
  (claim7_speakers.2.2.1 _ _ _ (by decide)).trans (by decide)

/-- Claim C9: a response that parses to a falsy JSON value (in particular
the empty object `\x7b\x7d`) is treated exactly like a parse failure:
`summarize_structured` returns the extractive fallback with all four
lists empty, although JSON parsing itself succeeded. -/
theorem claim9_falsy_json (resp transcript title language : LC) (j : Json)
    (h1 : pyParseJson resp = some j) (h2 : jsonTruthy j = false)
    (h3 : pyStrip transcript ≠ []) (h4 : (pyStrip transcript).length ≤ 12000) :
    (summarize_structured (fun _ => .ok resp) transcript title language).1 =
      .ok ⟨fallbackSummary (pyStrip transcript), [], [], [], []⟩ := by
  simp [summarize_structured, h3, Nat.not_lt.mpr h4, summarizeOnceL,
    summarizeOnceBody, h1, h2]

/-- Witness for C9 at the exact response `\x7b\x7d`. -/
theorem claim9_w :
    (summarize_structured (fun _ => .ok (lc "\x7b\x7d"))
        (lc "Alpha. Beta.") (lc "t") (lc "ar")).1 =
      .ok ⟨fallbackSummary (pyStrip (lc "Alpha. Beta.")), [], [], [], []⟩ :=
  claim9_falsy_json _ _ _ _ (.jobj []) rfl rfl (by decide) (by decide)

/-! ### Lemmas about stripping, joining and the chunking loop -/

theorem dropWhile_head_false (p : Char → Bool) :
    ∀ (l : LC) (c : Char) (r : LC), l.dropWhile p = c :: r → p c = false := by
  intro l
  induction l with
  | nil => intro c r h; simp at h
  | cons a l ih =>
    intro c r h
    rw [List.dropWhile_cons] at h
    split at h
    · exact ih _ _ h
    · next hpa =>
      injection h with h1 _
      subst h1
      simpa using hpa

theorem dropWhile_decomp (p : Char → Bool) : ∀ l : LC, ∃ t, l = t ++ l.dropWhile p := by
  intro l
  induction l with
  | nil => exact ⟨[], rfl⟩
  | cons a l ih =>
    rw [List.dropWhile_cons]
    split
    · obtain ⟨t, ht⟩ := ih
      exact ⟨a :: t, by rw [List.cons_append, ← ht]⟩
    · exact ⟨[], rfl⟩

theorem dropWhile_eq_self_of (p : Char → Bool) (l : LC)
    (h : ∀ c ∈ l, p c = false) : l.dropWhile p = l := by
  cases l with
  | nil => rfl
  | cons a l =>
    rw [List.dropWhile_cons, if_neg]
    simp [h a (by simp)]

theorem pyStrip_length_le (l : LC) : (pyStrip l).length ≤ l.length := by
  unfold pyStrip
  calc (((l.dropWhile isPySpace).reverse.dropWhile isPySpace).reverse).length
      = ((l.dropWhile isPySpace).reverse.dropWhile isPySpace).length :=
        List.length_reverse _
    _ ≤ (l.dropWhile isPySpace).reverse.length :=
        (List.dropWhile_sublist _).length_le
    _ = (l.dropWhile isPySpace).length := List.length_reverse _
    _ ≤ l.length := (List.dropWhile_sublist _).length_le

theorem pyStrip_head_no_ws (l : LC) (c : Char) (r : LC)
    (h : pyStrip l = c :: r) : isPySpace c = false := by
  obtain ⟨t, ht⟩ := dropWhile_decomp isPySpace (l.dropWhile isPySpace).reverse
  have hm : l.dropWhile isPySpace = pyStrip l ++ t.reverse := by
    conv_lhs => rw [← List.reverse_reverse (l.dropWhile isPySpace)]
    rw [ht]
    simp [pyStrip]
  rw [h] at hm
  exact dropWhile_head_false isPySpace l c _ hm

theorem dropWhile_append_last_ne_nil (p : Char → Bool) (c : Char) (h : p c = false) :
    ∀ xs : LC, (xs ++ [c]).dropWhile p ≠ [] := by
  intro xs
  induction xs with
  | nil => simp [List.dropWhile_cons, h]
  | cons a l ih =>
    rw [List.cons_append, List.dropWhile_cons]
    split
    · exact ih
    · simp

theorem pyStrip_cons_ne_nil (c : Char) (r : LC) (h : isPySpace c = false) :
    pyStrip (c :: r) ≠ [] := by
  unfold pyStrip
  rw [List.dropWhile_cons, if_neg (by simp [h]), List.reverse_cons]
  intro habs
  rw [List.reverse_eq_nil_iff] at habs
  exact dropWhile_append_last_ne_nil isPySpace c h r.reverse habs

theorem pyStrip_no_ws (l : LC) (h : ∀ c ∈ l, isPySpace c = false) :
    pyStrip l = l := by
  unfold pyStrip
  rw [dropWhile_eq_self_of isPySpace l h,
      dropWhile_eq_self_of isPySpace l.reverse
        (fun c hc => h c (List.mem_reverse.mp hc)),
      List.reverse_reverse]

theorem joinSpace_append_one (t : LC) :
    ∀ buf : List LC, buf ≠ [] →
      joinSpace (buf ++ [t]) = joinSpace buf ++ ' ' :: t := by
  intro buf
  induction buf with
  | nil => intro h; exact absurd rfl h
  | cons b rest ih =>
    intro _
    cases rest with
    | nil => simp [joinSpace, joinWith]
    | cons b2 r2 =>
      have h2 := ih (by simp)
      have e1 : joinSpace ((b :: b2 :: r2) ++ [t]) =
          b ++ [' '] ++ joinSpace ((b2 :: r2) ++ [t]) := rfl
      have e2 : joinSpace (b :: b2 :: r2) =
          b ++ [' '] ++ joinSpace (b2 :: r2) := rfl
      rw [e1, h2, e2]
      simp

theorem joinSpace_head (c : Char) (r : LC) (rest : List LC) :
    ∃ tail, joinSpace ((c :: r) :: rest) = c :: tail := by
  cases rest with
  | nil => exact ⟨r, rfl⟩
  | cons b2 r2 => exact ⟨r ++ [' '] ++ joinWith [' '] (b2 :: r2), rfl⟩

theorem flushParts_length_le (parts buf : List LC) :
    (flushParts parts buf).length ≤ parts.length + 1 := by
  unfold flushParts
  split <;> simp

theorem flushParts_append (parts buf : List LC) :
    flushParts parts buf = parts ++ flushParts [] buf := by
  unfold flushParts
  split <;> simp

theorem flushParts_ne_nil (parts buf : List LC)
    (hp : ∀ p ∈ parts, p ≠ [])
    (hb : ∀ b ∈ buf, ∃ c r, b = c :: r ∧ isPySpace c = false) :
    ∀ p ∈ flushParts parts buf, p ≠ [] := by
  unfold flushParts
  split
  · exact hp
  · next hbuf =>
    intro p hpmem
    rcases List.mem_append.mp hpmem with h1 | h1
    · exact hp p h1
    · simp only [List.mem_singleton] at h1
      subst h1
      cases buf with
      | nil => exact absurd rfl hbuf
      | cons b rest =>
        obtain ⟨c, r, rfl, hc⟩ := hb b (by simp)
        obtain ⟨tail, htail⟩ := joinSpace_head c r rest
        rw [htail]
        exact pyStrip_cons_ne_nil c tail hc

theorem chunkGo_length_le (cs mc : Nat) :
    ∀ (tokens parts buf : List LC) (size : Nat),
      parts.length < mc → (chunkGo cs mc tokens parts buf size).length ≤ mc := by
  intro tokens
  induction tokens with
  | nil =>
    intro parts buf size h
    simp only [chunkGo, if_pos h]
    exact le_trans (flushParts_length_le parts buf) h
  | cons tok rest ih =>
    intro parts buf size h
    simp only [chunkGo]
    by_cases ht : pyStrip tok = []
    · rw [if_pos ht]; exact ih parts buf size h
    · rw [if_neg ht]
      by_cases hov : cs < size + (pyStrip tok).length + 1
      · rw [if_pos hov]
        by_cases hbr : mc ≤ (flushParts parts buf).length
        · rw [if_pos hbr]
          exact le_trans (flushParts_length_le parts buf) h
        · rw [if_neg hbr]
          exact ih _ _ _ (Nat.lt_of_not_le hbr)
      · rw [if_neg hov]
        exact ih _ _ _ h

theorem chunkGo_bounded (cs mc : Nat) :
    ∀ (tokens parts buf : List LC) (size : Nat),
      (∀ p ∈ parts, p.length ≤ cs) →
      (buf ≠ [] → (joinSpace buf).length < size) →
      (buf = [] → size = 0) →
      size ≤ cs →
      (∀ tok ∈ tokens, (pyStrip tok).length + 1 ≤ cs) →
      ∀ p ∈ chunkGo cs mc tokens parts buf size, p.length ≤ cs := by
  have hflush : ∀ (parts buf : List LC) (size : Nat),
      (∀ p ∈ parts, p.length ≤ cs) →
      (buf ≠ [] → (joinSpace buf).length < size) → size ≤ cs →
      ∀ p ∈ flushParts parts buf, p.length ≤ cs := by
    intro parts buf size hp hb hsz p hpmem
    unfold flushParts at hpmem
    split at hpmem
    · exact hp p hpmem
    · next hbuf =>
      rcases List.mem_append.mp hpmem with h1 | h1
      · exact hp p h1
      · simp only [List.mem_singleton] at h1
        subst h1
        exact le_trans (pyStrip_length_le _)
          (le_trans (Nat.le_of_lt (hb hbuf)) hsz)
  intro tokens
  induction tokens with
  | nil =>
    intro parts buf size hp hb _ hsz _
    simp only [chunkGo]
    split
    · exact hflush parts buf size hp hb hsz
    · exact hp
  | cons tok rest ih =>
    intro parts buf size hp hb hb0 hsz htok
    have htok1 : (pyStrip tok).length + 1 ≤ cs := htok tok (by simp)
    have htokr : ∀ t ∈ rest, (pyStrip t).length + 1 ≤ cs :=
      fun t htm => htok t (by simp [htm])
    simp only [chunkGo]
    by_cases ht : pyStrip tok = []
    · rw [if_pos ht]; exact ih parts buf size hp hb hb0 hsz htokr
    · rw [if_neg ht]
      by_cases hov : cs < size + (pyStrip tok).length + 1
      · rw [if_pos hov]
        have hp2 := hflush parts buf size hp hb hsz
        by_cases hbr : mc ≤ (flushParts parts buf).length
        · rw [if_pos hbr]; exact hp2
        · rw [if_neg hbr]
          refine ih _ _ _ hp2 ?_ ?_ htok1 htokr
          · intro _
            show (joinSpace [pyStrip tok]).length < (pyStrip tok).length + 1
            simp [joinSpace, joinWith]
          · intro habs; simp at habs
      · rw [if_neg hov]
        have hsz2 : size + (pyStrip tok).length + 1 ≤ cs := Nat.le_of_not_lt hov
        refine ih _ _ _ hp ?_ ?_ hsz2 htokr
        · intro _
          cases hbuf : buf with
          | nil =>
            have h0 := hb0 hbuf
            subst h0
            simp [hbuf, joinSpace, joinWith]
          | cons b r =>
            rw [← hbuf, joinSpace_append_one _ buf (by simp [hbuf])]
            have := hb (by simp [hbuf])
            simp only [List.length_append, List.length_cons]
            omega
        · intro habs; simp at habs

theorem noCapGo_parts (cs : Nat) :
    ∀ (tokens parts buf : List LC) (size : Nat),
      noCapGo cs tokens parts buf size =
        parts ++ noCapGo cs tokens [] buf size := by
  intro tokens
  induction tokens with
  | nil => intro parts buf size; simp only [noCapGo]; exact flushParts_append parts buf
  | cons tok rest ih =>
    intro parts buf size
    simp only [noCapGo]
    by_cases ht : pyStrip tok = []
    · rw [if_pos ht, if_pos ht]; exact ih parts buf size
    · rw [if_neg ht, if_neg ht]
      by_cases hov : cs < size + (pyStrip tok).length + 1
      · rw [if_pos hov, if_pos hov]
        rw [ih (flushParts parts buf) _ _, ih (flushParts [] buf) _ _,
            flushParts_append parts buf]
        simp
      · rw [if_neg hov, if_neg hov]
        exact ih parts _ _

theorem chunkGo_eq_take (cs mc : Nat) :
    ∀ (tokens parts buf : List LC) (size : Nat), parts.length < mc →
      chunkGo cs mc tokens parts buf size =
        (noCapGo cs tokens parts buf size).take mc := by
  intro tokens
  induction tokens with
  | nil =>
    intro parts buf size h
    simp only [chunkGo, noCapGo, if_pos h]
    exact (List.take_of_length_le (le_trans (flushParts_length_le parts buf) h)).symm
  | cons tok rest ih =>
    intro parts buf size h
    simp only [chunkGo, noCapGo]
    by_cases ht : pyStrip tok = []
    · rw [if_pos ht, if_pos ht]; exact ih parts buf size h
    · rw [if_neg ht, if_neg ht]
      by_cases hov : cs < size + (pyStrip tok).length + 1
      · rw [if_pos hov, if_pos hov]
        by_cases hbr : mc ≤ (flushParts parts buf).length
        · rw [if_pos hbr]
          have hlen : (flushParts parts buf).length = mc :=
            le_antisymm (le_trans (flushParts_length_le parts buf) h) hbr
          rw [noCapGo_parts cs rest (flushParts parts buf) _ _, ← hlen,
              List.take_left]
        · rw [if_neg hbr]
          exact ih _ _ _ (Nat.lt_of_not_le hbr)
      · rw [if_neg hov, if_neg hov]
        exact ih parts _ _ h

theorem noCapGo_ne_nil (cs : Nat) :
    ∀ (tokens parts buf : List LC) (size : Nat),
      (∀ p ∈ parts, p ≠ []) →
      (∀ b ∈ buf, ∃ c r, b = c :: r ∧ isPySpace c = false) →
      ∀ p ∈ noCapGo cs tokens parts buf size, p ≠ [] := by
  intro tokens
  induction tokens with
  | nil =>
    intro parts buf size hp hb
    simp only [noCapGo]
    exact flushParts_ne_nil parts buf hp hb
  | cons tok rest ih =>
    intro parts buf size hp hb
    simp only [noCapGo]
    by_cases ht : pyStrip tok = []
    · rw [if_pos ht]; exact ih parts buf size hp hb
    · rw [if_neg ht]
      have htk : ∃ c r, pyStrip tok = c :: r ∧ isPySpace c = false := by
        cases hts : pyStrip tok with
        | nil => exact absurd hts ht
        | cons c r => exact ⟨c, r, rfl, pyStrip_head_no_ws tok c r hts⟩
      by_cases hov : cs < size + (pyStrip tok).length + 1
      · rw [if_pos hov]
        refine ih _ _ _ (flushParts_ne_nil parts buf hp hb) ?_
        intro b hbm
        simp only [List.mem_singleton] at hbm
        subst hbm
        exact htk
      · rw [if_neg hov]
        refine ih _ _ _ hp ?_
        intro b hbm
        rcases List.mem_append.mp hbm with h1 | h1
        · exact hb b h1
        · simp only [List.mem_singleton] at h1
          subst h1
          exact htk

theorem reSplitGo_run (rest : LC) :
    ∀ (n : Nat) (acc : LC),
      reSplitGo none acc (List.replicate n 'a' ++ rest) =
        reSplitGo none (List.replicate n 'a' ++ acc) rest := by
  intro n
  induction n with
  | zero => intro acc; simp
  | succ n ih =>
    intro acc
    rw [List.replicate_succ, List.cons_append]
    have e : reSplitGo none acc ('a' :: (List.replicate n 'a' ++ rest)) =
        reSplitGo none ('a' :: acc) (List.replicate n 'a' ++ rest) := by
      simp [reSplitGo, isSentSep]
    rw [e, ih ('a' :: acc)]
    congr 1
    rw [List.append_cons, ← List.replicate_succ', List.replicate_succ,
        List.cons_append]

theorem reSplitSep_replicate (n : Nat) :
    reSplitSep (List.replicate n 'a') = [List.replicate n 'a'] := by
  unfold reSplitSep
  have := reSplitGo_run [] n []
  rw [List.append_nil] at this
  rw [this]
  simp [reSplitGo]

theorem pyStrip_replicate_a (n : Nat) :
    pyStrip (List.replicate n 'a') = List.replicate n 'a' :=
  pyStrip_no_ws _ (fun c hc => by rw [List.eq_of_mem_replicate hc]; rfl)

/-- Claim C3 counterexample: a stripped transcript of 13000 identical
letters (no sentence or paragraph boundary anywhere) is longer than
12000, so `summarize_structured` chunks it — but `_chunk_text` returns it
as one single chunk of 13000 characters, violating the claimed
6000-character chunk bound. -/
theorem claim3_cex :
    12000 < (pyStrip (List.replicate 13000 'a')).length ∧
    chunk_text (pyStrip (List.replicate 13000 'a')) 6000 6 =
      [List.replicate 13000 'a'] ∧
    6000 < (List.replicate 13000 'a').length := by
  have hst := pyStrip_replicate_a 13000
  have hA : List.replicate 13000 'a' ≠ [] := by
    intro habs
    have hl := congrArg List.length habs
    rw [List.length_replicate] at hl
    exact absurd hl (by decide)
  refine ⟨by rw [hst, List.length_replicate]; decide, ?_,
    by rw [List.length_replicate]; decide⟩
  rw [hst]
  unfold chunk_text
  rw [reSplitSep_replicate]
  have e1 : chunkGo 6000 6 [List.replicate 13000 'a'] [] [] 0 =
      chunkGo 6000 6 [] [] [List.replicate 13000 'a'] ((List.replicate 13000 'a').length + 1) := by
    simp only [chunkGo, pyStrip_replicate_a]
    rw [if_neg hA, if_pos (by rw [List.length_replicate]; decide),
        if_neg (by simp [flushParts])]
    have hf0 : flushParts [] [] = [] := rfl
    rw [hf0]
  have e2 : chunkGo 6000 6 ([] : List LC) [] [List.replicate 13000 'a']
      ((List.replicate 13000 'a').length + 1) = [List.replicate 13000 'a'] := by
    simp only [chunkGo, if_pos (by decide : ([] : List LC).length < 6)]
    unfold flushParts
    rw [if_neg (List.cons_ne_nil _ _)]
    have hj : joinSpace [List.replicate 13000 'a'] = List.replicate 13000 'a' := rfl
    rw [hj, pyStrip_replicate_a]
    rfl
  rw [e1, e2]
  apply List.filter_eq_self.mpr
  intro a ha
  simp only [List.mem_singleton] at ha
  subst ha
  exact decide_eq_true hA

/-- Claim C3 amended: `_chunk_text` always returns at most 6 chunks, and
every chunk is at most 6000 characters provided no single token of the
sentence/newline split exceeds the chunk size (the unbounded-token case
is exactly the counterexample); a transcript whose stripped text has at
most 12000 characters (in particular exactly 12000) is processed by the
single-chunk path with no splitting. -/
theorem claim3_amended :
    (∀ text : LC, (chunk_text text 6000 6).length ≤ 6) ∧
    (∀ text : LC, (∀ tok ∈ reSplitSep text, (pyStrip tok).length + 1 ≤ 6000) →
      ∀ p ∈ chunk_text text 6000 6, p.length ≤ 6000) ∧
    (∀ (transcript title language : LC) (call : CallEnv),
      (pyStrip transcript).length ≤ 12000 → pyStrip transcript ≠ [] →
      summarize_structured call transcript title language =
        summarizeOnceL call (pyStrip transcript) language title) := by
  refine ⟨?_, ?_, ?_⟩
  · intro text
    exact le_trans (List.length_filter_le _ _)
      (chunkGo_length_le 6000 6 _ [] [] 0 (by decide))
  · intro text htok p hp
    have hp2 : p ∈ chunkGo 6000 6 (reSplitSep text) [] [] 0 :=
      List.mem_of_mem_filter hp
    exact chunkGo_bounded 6000 6 _ [] [] 0 (by simp) (by simp)
      (fun _ => rfl) (by decide) htok p hp2
  · intro transcript title language call hle hne
    simp [summarize_structured, hne, Nat.not_lt.mpr hle]

/-- Witness for the amended C3 at concrete inputs. -/
theorem claim3_w :
    (chunk_text (lc "ab. cd") 6000 6).length ≤ 6 ∧
    (∀ p ∈ chunk_text (lc "ab. cd") 6000 6, p.length ≤ 6000) ∧
    summarize_structured (fun _ => .ok []) (lc "hello.") (lc "t") (lc "ar") =
      summarizeOnceL (fun _ => .ok []) (pyStrip (lc "hello.")) (lc "ar") (lc "t") :=
  ⟨claim3_amended.1 _, claim3_amended.2.1 _ (by decide),
   claim3_amended.2.2 (lc "hello.") (lc "t") (lc "ar") _ (by decide) (by decide)⟩

/-- Claim C10: whenever the uncapped chunking of a long transcript would
produce more than 6 chunks, `_chunk_text` returns exactly the first 6 of
them and drops the rest, and `summarize_structured` operates on those 6
chunks alone — the trailing text is never sent to the model and
contributes nothing to the final structured summary. -/
theorem claim10_truncation (transcript title language : LC) (call : CallEnv)
    (hlen : 12000 < (pyStrip transcript).length)
    (hmany : 6 < (noCapChunks (pyStrip transcript) 6000).length) :
    chunkGo 6000 6 (reSplitSep (pyStrip transcript)) [] [] 0 =
      (noCapChunks (pyStrip transcript) 6000).take 6 ∧
    (chunk_text (pyStrip transcript) 6000 6).length = 6 ∧
    summarize_structured call transcript title language =
      summarizeChunkedPath call ((noCapChunks (pyStrip transcript) 6000).take 6)
        title language := by
  have htake : chunkGo 6000 6 (reSplitSep (pyStrip transcript)) [] [] 0 =
      (noCapChunks (pyStrip transcript) 6000).take 6 :=
    chunkGo_eq_take 6000 6 _ [] [] 0 (by decide)
  have hnn : ∀ p ∈ noCapChunks (pyStrip transcript) 6000, p ≠ [] :=
    noCapGo_ne_nil 6000 _ [] [] 0 (by simp) (by simp)
  have hct : chunk_text (pyStrip transcript) 6000 6 =
      (noCapChunks (pyStrip transcript) 6000).take 6 := by
    unfold chunk_text
    rw [htake]
    apply List.filter_eq_self.mpr
    intro a ha
    simpa using hnn a (List.mem_of_mem_take ha)
  refine ⟨htake, ?_, ?_⟩
  · rw [hct, List.length_take]
    omega
  · have hne : pyStrip transcript ≠ [] := by
      intro habs
      rw [habs] at hlen
      simp at hlen
    simp only [summarize_structured, if_neg hne, if_pos hlen]
    rw [hct]

/-! ### Concrete computations for the truncation witness -/

theorem noCapGo_step_skip (cs : Nat) (tok : LC) (rest parts buf : List LC)
    (size : Nat) (h : pyStrip tok = []) :
    noCapGo cs (tok :: rest) parts buf size = noCapGo cs rest parts buf size := by
  simp only [noCapGo]
  rw [if_pos h]

theorem noCapGo_step_over (cs : Nat) (tok : LC) (rest parts buf : List LC)
    (size : Nat) (h1 : pyStrip tok ≠ []) (h2 : cs < size + (pyStrip tok).length + 1) :
    noCapGo cs (tok :: rest) parts buf size =
      noCapGo cs rest (flushParts parts buf) [pyStrip tok] ((pyStrip tok).length + 1) := by
  simp only [noCapGo]
  rw [if_neg h1, if_pos h2]

theorem noCapGo_step_add (cs : Nat) (tok : LC) (rest parts buf : List LC)
    (size : Nat) (h1 : pyStrip tok ≠ []) (h2 : ¬ cs < size + (pyStrip tok).length + 1) :
    noCapGo cs (tok :: rest) parts buf size =
      noCapGo cs rest parts (buf ++ [pyStrip tok]) (size + (pyStrip tok).length + 1) := by
  simp only [noCapGo]
  rw [if_neg h1, if_neg h2]

theorem replicate_a_ne_nil : List.replicate 5999 'a' ≠ [] := by
  intro habs
  have hl := congrArg List.length habs
  rw [List.length_replicate] at hl
  exact absurd hl (by decide)

theorem flushParts_run (parts : List LC) :
    flushParts parts [List.replicate 5999 'a'] = parts ++ [List.replicate 5999 'a'] := by
  unfold flushParts
  rw [if_neg (List.cons_ne_nil _ _)]
  have h1 : joinSpace [List.replicate 5999 'a'] = List.replicate 5999 'a' := rfl
  rw [h1, pyStrip_replicate_a]

theorem flushParts_dot (parts : List LC) :
    flushParts parts [['.']] = parts ++ [['.']] := by
  unfold flushParts
  rw [if_neg (List.cons_ne_nil _ _)]
  rfl

theorem noCap_entry (rest : List LC) :
    noCapGo 6000 (List.replicate 5999 'a' :: ['.'] :: rest) [] [] 0 =
      noCapGo 6000 rest [List.replicate 5999 'a'] [['.']] 2 := by
  rw [noCapGo_step_add 6000 _ _ _ _ _
      (by rw [pyStrip_replicate_a]; exact replicate_a_ne_nil)
      (by rw [pyStrip_replicate_a, List.length_replicate]; decide)]
  rw [pyStrip_replicate_a, List.length_replicate]
  have e1 : (0 : Nat) + 5999 + 1 = 6000 := by norm_num
  rw [List.nil_append, e1]
  rw [noCapGo_step_over 6000 ['.'] _ _ _ _ (by decide) (by decide)]
  rw [flushParts_run]
  rfl

theorem noCap_unit_step (rest parts : List LC) :
    noCapGo 6000 (List.replicate 5999 'a' :: ['.'] :: rest) parts [['.']] 2 =
      noCapGo 6000 rest (parts ++ [['.'], List.replicate 5999 'a']) [['.']] 2 := by
  rw [noCapGo_step_over 6000 _ _ _ _ _
      (by rw [pyStrip_replicate_a]; exact replicate_a_ne_nil)
      (by rw [pyStrip_replicate_a, List.length_replicate]; decide)]
  rw [pyStrip_replicate_a, List.length_replicate, flushParts_dot]
  have e1 : (5999 : Nat) + 1 = 6000 := by norm_num
  rw [e1]
  rw [noCapGo_step_over 6000 ['.'] _ _ _ _ (by decide) (by decide)]
  rw [flushParts_run]
  have e2 : (parts ++ [['.']]) ++ [List.replicate 5999 'a'] =
      parts ++ [['.'], List.replicate 5999 'a'] := by
    rw [List.append_assoc]
    rfl
  rw [e2]
  rfl

theorem noCap_tail (parts : List LC) :
    noCapGo 6000 [[]] parts [['.']] 2 = parts ++ [['.']] := by
  rw [noCapGo_step_skip 6000 [] _ _ _ _ rfl]
  simp only [noCapGo]
  exact flushParts_dot parts

theorem noCap_units : ∀ (k : Nat) (parts : List LC),
    noCapGo 6000
        ((List.replicate k [List.replicate 5999 'a', ['.']]).flatten ++ [[]])
        parts [['.']] 2 =
      parts ++ (List.replicate k [['.'], List.replicate 5999 'a']).flatten ++ [['.']] := by
  intro k
  induction k with
  | zero =>
    intro parts
    have e0 : ((List.replicate 0 [List.replicate 5999 'a', ['.']]).flatten ++ [[]])
        = [([] : LC)] := rfl
    have e1 : (List.replicate 0 [['.'], List.replicate 5999 'a']).flatten
        = ([] : List LC) := rfl
    rw [e0, e1, List.append_nil]
    exact noCap_tail parts
  | succ k ih =>
    intro parts
    have e2 : List.replicate (k + 1) [List.replicate 5999 'a', ['.']] =
        [List.replicate 5999 'a', ['.']] :: List.replicate k [List.replicate 5999 'a', ['.']] :=
      List.replicate_succ _ _
    have e3 : (([List.replicate 5999 'a', ['.']] ++
          (List.replicate k [List.replicate 5999 'a', ['.']]).flatten) ++ [[]]) =
        List.replicate 5999 'a' :: ['.'] ::
          ((List.replicate k [List.replicate 5999 'a', ['.']]).flatten ++ [[]]) := rfl
    rw [e2, List.flatten_cons, e3, noCap_unit_step, ih]
    have e4 : List.replicate (k + 1) [['.'], List.replicate 5999 'a'] =
        [['.'], List.replicate 5999 'a'] :: List.replicate k [['.'], List.replicate 5999 'a'] :=
      List.replicate_succ _ _
    rw [e4, List.flatten_cons, ← List.append_assoc parts]

theorem reSplit_dot (acc rest : LC) :
    reSplitGo none acc ('.' :: rest) = acc.reverse :: ['.'] :: reSplitGo none [] rest := by
  simp [reSplitGo, isSentSep]

theorem reSplit_units : ∀ k : Nat,
    reSplitSep ((List.replicate k (List.replicate 5999 'a' ++ ['.'])).flatten) =
      (List.replicate k [List.replicate 5999 'a', ['.']]).flatten ++ [[]] := by
  intro k
  induction k with
  | zero => rfl
  | succ k ih =>
    have e2 : List.replicate (k + 1) (List.replicate 5999 'a' ++ ['.']) =
        (List.replicate 5999 'a' ++ ['.']) ::
          List.replicate k (List.replicate 5999 'a' ++ ['.']) :=
      List.replicate_succ _ _
    have e3 : (List.replicate 5999 'a' ++ ['.']) ++
          (List.replicate k (List.replicate 5999 'a' ++ ['.'])).flatten =
        List.replicate 5999 'a' ++
          ('.' :: (List.replicate k (List.replicate 5999 'a' ++ ['.'])).flatten) := by
      rw [List.append_assoc]
      rfl
    unfold reSplitSep
    rw [e2, List.flatten_cons, e3,
        reSplitGo_run ('.' :: (List.replicate k (List.replicate 5999 'a' ++ ['.'])).flatten) 5999 [],
        List.append_nil, reSplit_dot, List.reverse_replicate]
    unfold reSplitSep at ih
    rw [ih]
    have e4 : List.replicate (k + 1) [List.replicate 5999 'a', ['.']] =
        [List.replicate 5999 'a', ['.']] :: List.replicate k [List.replicate 5999 'a', ['.']] :=
      List.replicate_succ _ _
    rw [e4, List.flatten_cons]
    rfl

theorem bigTranscript_no_ws : ∀ c ∈ bigTranscript, isPySpace c = false := by
  intro c hc
  unfold bigTranscript at hc
  rw [List.mem_flatten] at hc
  obtain ⟨u, hu, hcu⟩ := hc
  have hue := List.eq_of_mem_replicate hu
  subst hue
  rcases List.mem_append.mp hcu with h1 | h1
  · rw [List.eq_of_mem_replicate h1]; rfl
  · simp only [List.mem_singleton] at h1
    subst h1
    rfl

theorem noCapChunks_big :
    noCapChunks bigTranscript 6000 =
      [List.replicate 5999 'a'] ++
        (List.replicate 6 [['.'], List.replicate 5999 'a']).flatten ++ [['.']] := by
  unfold noCapChunks bigTranscript
  rw [reSplit_units 7]
  have e7 : (List.replicate 7 [List.replicate 5999 'a', ['.']]).flatten ++ [[]] =
      List.replicate 5999 'a' :: ['.'] ::
        ((List.replicate 6 [List.replicate 5999 'a', ['.']]).flatten ++ [[]]) := rfl
  rw [e7, noCap_entry, noCap_units]

theorem bigTranscript_length : bigTranscript.length = 42000 := by
  unfold bigTranscript
  rw [List.length_flatten, List.map_replicate]
  have e1 : (List.replicate 5999 'a' ++ ['.']).length = 6000 := by
    rw [List.length_append, List.length_replicate]
    rfl
  rw [e1]
  rfl

/-- Witness for C10: the 42000-character transcript `bigTranscript`
uncapped-chunks into 14 pieces; the theorem instantiates to exactly 6
retained chunks and a summarization run over those 6 alone. -/
theorem claim10_w :
    12000 < (pyStrip bigTranscript).length ∧
    6 < (noCapChunks (pyStrip bigTranscript) 6000).length ∧
    (chunk_text (pyStrip bigTranscript) 6000 6).length = 6 ∧
    summarize_structured (fun _ => .ok []) bigTranscript (lc "t") (lc "ar") =
      summarizeChunkedPath (fun _ => .ok [])
        ((noCapChunks (pyStrip bigTranscript) 6000).take 6) (lc "t") (lc "ar") := by
  have hsb : pyStrip bigTranscript = bigTranscript :=
    pyStrip_no_ws _ bigTranscript_no_ws
  have h1 : 12000 < (pyStrip bigTranscript).length := by
    rw [hsb, bigTranscript_length]; decide
  have h2 : 6 < (noCapChunks (pyStrip bigTranscript) 6000).length := by
    rw [hsb, noCapChunks_big]
    decide
  obtain ⟨-, hB, hC⟩ :=
    claim10_truncation bigTranscript (lc "t") (lc "ar") (fun _ => .ok []) h1 h2
  exact ⟨h1, h2, hB, hC⟩

end MT
